import Mathlib

/-!
Shallow embedding of the FCL collision-checking wrapper
(`src/omplapp/geometry/detail/FCLMethodWrapper.h`) and of the robot-count
accessor of `src/omplapp/apps/SE2RigidBodyPlanning.h`.

Conventions of the embedding:

* Geometric coordinates and reported times/distances are rationals (`ℚ`),
  modelling the real-valued quantities of the code.
* A `Pose` is a translation vector plus a quaternion, exactly the data the
  wrapper passes between the pose-extraction callback and the FCL
  primitives; the wrapper itself never inspects its components.
* Planner states (`const base::State*`) are never inspected by the wrapper;
  they are modelled as an abstract token type `PState`.  The composition of
  `extractState_` and `poseFromStateCallback_` is modelled as a single
  function `PoseFromState` mapping a state and a part index to a `Pose`.
* The FCL library primitives (`fcl::collide`, `fcl::conservativeAdvancement`,
  `fcl::distance` on a `MeshDistanceTraversalNodeRSS`) are external
  collaborators, out of scope of the repository; they are modelled at their
  interface by an abstract oracle `FCLOracle` indexed by the part number
  (which identifies the part geometry) and the poses/motions handed over by
  the wrapper.  `conservativeAdvancement` writes its time-of-impact result
  through a reference exactly when it reports a contact; this is modelled by
  `Option ℚ` (`some t` = contact reported at parameter `t`, the reference is
  overwritten with `t`; `none` = no contact, the reference is untouched).
* The mutable scratch transform that `robotParts_[i].setTransform` updates is
  the `robotParts` field of `FCLMethodWrapper`; queries thread the wrapper
  value explicitly, returning the wrapper as it stands after the call.
-/

/-- 3D vector (`fcl::Vec3f` / `aiVector3D`). -/
abbrev Vec3 : Type := ℚ × ℚ × ℚ

/-- Quaternion (`fcl::SimpleQuaternion`). -/
abbrev Quat : Type := ℚ × ℚ × ℚ × ℚ

/-- A rigid pose: translation plus rotation quaternion. -/
structure Pose where
  translation : Vec3
  rotation : Quat
deriving DecidableEq, Repr

instance : Inhabited Pose := ⟨⟨(0, 0, 0), (1, 0, 0, 0)⟩⟩

/-- Opaque planner state (`const base::State*`). -/
abbrev PState : Type := ℤ

/-- Composition of `extractState_` and `poseFromStateCallback_`: the pose of
part `i` implied by a planner state. -/
abbrev PoseFromState : Type := PState → ℕ → Pose

/-- Abstract interface of the FCL primitives used by the wrapper.  Part
geometries are identified by their index in `robotParts_`; the environment
geometry is fixed.

* `collideEnv i p` models `fcl::collide (&robotParts_[i], &environment_, ...) ≠ 0`
  with part `i` at pose `p`.
* `collideParts i p j q` models `fcl::collide (&robotParts_[i], &robotParts_[j], ...) ≠ 0`
  with part `i` at pose `p` and part `j` at pose `q`.
* `distEnv i p` models the `min_distance` computed by `fcl::distance` between
  the environment and part `i` at pose `p` (a finite real).
* `caEnv i p₁ p₂` models `fcl::conservativeAdvancement` between part `i`
  interpolating from pose `p₁` to pose `p₂` and the motionless environment:
  `some t` iff a contact is reported, in which case the time-of-impact
  reference is overwritten with `t`.
* `caParts i p₁ p₂ j q₁ q₂` likewise between the interpolated motions of
  parts `i` and `j`. -/
structure FCLOracle where
  collideEnv : ℕ → Pose → Bool
  collideParts : ℕ → Pose → ℕ → Pose → Bool
  distEnv : ℕ → Pose → ℚ
  caEnv : ℕ → Pose → Pose → Option ℚ
  caParts : ℕ → Pose → Pose → ℕ → Pose → Pose → Option ℚ

/-- The state of an `FCLMethodWrapper` as far as queries observe it:
the triangle count of the environment model, the scratch pose currently
stored on each robot-part model (`robotParts_[i]`, set by `setTransform`),
and the self-collision flag. -/
structure FCLMethodWrapper where
  envNumTris : ℕ
  robotParts : List Pose
  selfCollision : Bool
deriving DecidableEq, Repr

/-- The list of indices `[j, j+1, ..., j+k-1]`: the index sequence of a
`for` loop starting at `j` running for `k` iterations. -/
def rangeFrom (j : ℕ) : ℕ → List ℕ
  | 0 => []
  | k + 1 => j :: rangeFrom (j + 1) k

/-- `nthPose l i` is `l[i]` (default pose when out of range). -/
def nthPose : List Pose → ℕ → Pose
  | [], _ => default
  | p :: _, 0 => p
  | _ :: rest, k + 1 => nthPose rest k

/-- Pair each pose with its index, starting from `j` (the traversal order of
an indexed loop over `robotParts_`). -/
def enumPoses (j : ℕ) : List Pose → List (ℕ × Pose)
  | [] => []
  | p :: rest => (j, p) :: enumPoses (j + 1) rest

/-- `FCLMethodWrapper::transformRobot`: for every part `i`, set the scratch
pose of that part to the pose implied by `state` (one callback call per part). -/
def transformParts (c : PoseFromState) (state : PState) : ℕ → List Pose → List Pose
  | _, [] => []
  | i, _ :: rest => c state i :: transformParts c state (i + 1) rest

/-- `transformRobot` acting on the whole wrapper state. -/
def transformRobot (c : PoseFromState) (state : PState) (w : FCLMethodWrapper) :
    FCLMethodWrapper :=
  { w with robotParts := transformParts c state 0 w.robotParts }

/-! ## Discrete validity query (`isValid (const base::State*)`) -/

/-- Result of a discrete validity query: the returned boolean, the wrapper
state on return (the scratch poses may have been rewritten by
`transformRobot`), and the number of `fcl::collide` calls that were issued
(instrumentation showing which intersection tests actually ran). -/
structure QueryResult where
  valid : Bool
  wrapper : FCLMethodWrapper
  testsRun : ℕ
deriving DecidableEq, Repr

/-- The environment-collision loop of the discrete `isValid`:
`for (i = 0; i < robotParts_.size () && valid; ++i)
   valid &= fcl::collide (&robotParts_[i], &environment_, ...) == 0;`
over the indexed list of the current scratch poses of the parts.  The second
component counts the `fcl::collide` calls performed. -/
def envCollisionLoop (o : FCLOracle) : List (ℕ × Pose) → Bool × ℕ
  | [] => (true, 0)
  | ip :: rest =>
      if o.collideEnv ip.1 ip.2 then (false, 1)
      else
        let r := envCollisionLoop o rest
        (r.1, r.2 + 1)

/-- The inner loop of the self-collision check: part `ip` against every later
part, stopping at the first collision. -/
def selfPairLoop (o : FCLOracle) (ip : ℕ × Pose) : List (ℕ × Pose) → Bool × ℕ
  | [] => (true, 0)
  | jq :: rest =>
      if o.collideParts ip.1 ip.2 jq.1 jq.2 then (false, 1)
      else
        let r := selfPairLoop o ip rest
        (r.1, r.2 + 1)

/-- The double loop of the self-collision check:
`for (i = 0; ...; ++i) for (j = i + 1; ...; ++j)
   valid &= fcl::collide (&robotParts_[i], &robotParts_[j], ...) == 0;`
over the indexed list of the current scratch poses of the parts. -/
def selfCollisionLoop (o : FCLOracle) : List (ℕ × Pose) → Bool × ℕ
  | [] => (true, 0)
  | ip :: rest =>
      let r := selfPairLoop o ip rest
      if r.1 then
        let r2 := selfCollisionLoop o rest
        (r2.1, r.2 + r2.2)
      else r

/-- `FCLMethodWrapper::isValid (const base::State *state)`.

If the environment model is non-empty, the parts are first transformed to
the poses implied by `state` and each is tested against the environment;
if self-collision checking is enabled and the state is still valid, every
pair `i < j` is tested.  Note that when the environment model is empty the
transform step is skipped, so the self-collision tests run on whatever
scratch poses the parts currently hold. -/
def isValid (o : FCLOracle) (c : PoseFromState) (w : FCLMethodWrapper)
    (state : PState) : QueryResult :=
  let w1 := if 0 < w.envNumTris then transformRobot c state w else w
  let envRes := if 0 < w.envNumTris then envCollisionLoop o (enumPoses 0 w1.robotParts)
                else (true, 0)
  if w.selfCollision && envRes.1 then
    let selfRes := selfCollisionLoop o (enumPoses 0 w1.robotParts)
    ⟨selfRes.1, w1, envRes.2 + selfRes.2⟩
  else
    ⟨envRes.1, w1, envRes.2⟩

/-! ## Continuous validity query (`isValid (s1, s2, collisionTime)`) -/

/-- Result of a continuous validity query: the returned boolean, the value of
the `collisionTime` reference on return, and the wrapper state on return. -/
structure MotionResult where
  valid : Bool
  collisionTime : ℚ
  wrapper : FCLMethodWrapper
deriving DecidableEq, Repr

/-- The environment loop of the continuous query: for each part index, fetch
the poses at `s1` and `s2` through the callback, build the interpolating
motion (the environment does not move) and run `fcl::conservativeAdvancement`
against the static environment; a reported contact overwrites the
time-of-impact reference and invalidates the motion.  The wrapper is threaded
unchanged: the loop body never writes any of its fields. -/
def caEnvLoop (o : FCLOracle) (c : PoseFromState) (s1 s2 : PState)
    (w : FCLMethodWrapper) : List ℕ → ℚ → Bool × ℚ × FCLMethodWrapper
  | [], t => (true, t, w)
  | i :: rest, t =>
      match o.caEnv i (c s1 i) (c s2 i) with
      | some tc => (false, tc, w)
      | none => caEnvLoop o c s1 s2 w rest t

/-- The inner pair loop of the continuous self-collision check: part `i`
against every later part `j`, each with its own interpolated motion. -/
def caPairLoop (o : FCLOracle) (c : PoseFromState) (s1 s2 : PState) (i : ℕ)
    (w : FCLMethodWrapper) : List ℕ → ℚ → Bool × ℚ × FCLMethodWrapper
  | [], t => (true, t, w)
  | j :: rest, t =>
      match o.caParts i (c s1 i) (c s2 i) j (c s1 j) (c s2 j) with
      | some tc => (false, tc, w)
      | none => caPairLoop o c s1 s2 i w rest t

/-- The outer loop of the continuous self-collision check, `n` being
`robotParts_.size ()`: for each `i`, run the inner loop over
`j = i+1, ..., n-1`. -/
def caSelfLoop (o : FCLOracle) (c : PoseFromState) (s1 s2 : PState) (n : ℕ)
    (w : FCLMethodWrapper) : List ℕ → ℚ → Bool × ℚ × FCLMethodWrapper
  | [], t => (true, t, w)
  | i :: rest, t =>
      let r := caPairLoop o c s1 s2 i w (rangeFrom (i + 1) (n - (i + 1))) t
      if r.1 then caSelfLoop o c s1 s2 n w rest r.2.1
      else r

/-- `FCLMethodWrapper::isValid (const base::State *s1, const base::State *s2,
double &collisionTime)` — the continuous (swept) validity check.

`collisionTime` starts at `1.0`; the poses used are computed into
local motion descriptors fetched via the callback, and no field of the
wrapper is written. -/
def isValidMotion (o : FCLOracle) (c : PoseFromState) (w : FCLMethodWrapper)
    (s1 s2 : PState) : MotionResult :=
  let n := w.robotParts.length
  let r1 := if 0 < w.envNumTris then caEnvLoop o c s1 s2 w (rangeFrom 0 n) 1
            else (true, 1, w)
  if w.selfCollision && r1.1 then
    let r2 := caSelfLoop o c s1 s2 n r1.2.2 (rangeFrom 0 n) r1.2.1
    ⟨r2.1, r2.2.1, r2.2.2⟩
  else
    ⟨r1.1, r1.2.1, r1.2.2⟩

/-! ## Clearance query (`clearance (const base::State*)`) -/

/-- The loop of `clearance`: `dist` starts at `+∞` (modelled as `none`), and
for each part the mesh distance to the environment replaces `dist` when it is
smaller (`if (distanceNode.min_distance < dist) dist = ...`; a finite value
always compares below `+∞`). -/
def clearanceLoop (o : FCLOracle) : List (ℕ × Pose) → Option ℚ → Option ℚ
  | [], d => d
  | ip :: rest, d =>
      let m := o.distEnv ip.1 ip.2
      let d1 := match d with
        | none => some m
        | some q => if m < q then some m else some q
      clearanceLoop o rest d1

/-- `FCLMethodWrapper::clearance`: minimum distance from the robot at `state`
to the environment; `+∞` (modelled as `none`) when the environment model is
empty.  Transforms the scratch poses exactly as the discrete query does. -/
def clearance (o : FCLOracle) (c : PoseFromState) (w : FCLMethodWrapper)
    (state : PState) : Option ℚ × FCLMethodWrapper :=
  if 0 < w.envNumTris then
    let w1 := transformRobot c state w
    (clearanceLoop o (enumPoses 0 w1.robotParts) none, w1)
  else (none, w)

/-! ## Model construction (`configure` / `getFCLModelFromScene`) -/

/-- The point list extracted from one mesh source (`scene::extractTriangles`
output): consecutive triples of points form triangles. -/
abbrev Mesh : Type := List Vec3

/-- A triangle as an index triple into a point list (`fcl::Triangle`). -/
abbrev Tri : Type := ℕ × ℕ × ℕ

/-- Componentwise vector subtraction (`t[j] -= center[i]`). -/
def vsub (a b : Vec3) : Vec3 := (a.1 - b.1, a.2.1 - b.2.1, a.2.2 - b.2.2)

/-- The triangle-emission loop
`for (j = 0; j < t.size (); j += 3) triangles.push_back (Triangle (j, j+1, j+2));`
written over its iteration count: `trisFromCount j k` emits `k` triangles
starting at index `j`, stepping by 3.  The loop over a point list of length
`len` performs `(len + 2) / 3` iterations. -/
def trisFromCount : ℕ → ℕ → List Tri
  | _, 0 => []
  | j, k + 1 => (j, j + 1, j + 2) :: trisFromCount (j + 3) k

/-- `GeometrySpecification`: the mesh sources and shifts consumed once at
construction.  A `none` entry models a null `aiScene*` pointer. -/
structure GeometrySpecification where
  obstacles : List (Option Mesh)
  obstaclesShift : List Vec3
  robot : List (Option Mesh)
  robotShift : List Vec3

/-- A built geometric model: the accumulated point list and triangle list
handed to `addSubModel`. -/
structure BuiltModel where
  points : List Vec3
  triangles : List Tri
deriving DecidableEq, Repr

/-- The engine state produced by a successful construction. -/
structure ConfiguredEngine where
  environment : BuiltModel
  robotParts : List BuiltModel
deriving DecidableEq, Repr

/-- `FCLMethodWrapper::getFCLModelFromScene` (the vector overload), with `i`
the current index into `scenes`/`center`.  A null scene is skipped entirely.
For a non-null scene the extracted points are shifted by `center[i]` when
that entry exists, the `assert (t.size () % 3 == 0)` invariant is checked —
its failure is a fatal, non-recoverable construction error, modelled as
`Except.error ()` — and the points and index triangles are appended. -/
def getFCLModelFromScene : List (Option Mesh) → List Vec3 → ℕ →
    Except Unit (List Vec3 × List Tri)
  | [], _, _ => .ok ([], [])
  | none :: rest, centers, i => getFCLModelFromScene rest centers (i + 1)
  | some t :: rest, centers, i =>
      let t1 := if h : i < centers.length then t.map (fun v => vsub v centers[i]) else t
      if t1.length % 3 = 0 then do
        let pr ← getFCLModelFromScene rest centers (i + 1)
        .ok (t1 ++ pr.1, trisFromCount 0 ((t1.length + 2) / 3) ++ pr.2)
      else .error ()

/-- The robot-configuration loop of `FCLMethodWrapper::configure`: one model
per robot piece, each built from the mesh source of that piece shifted by its
per-part center (the zero vector when `robotShift` has no entry for it). -/
def configureRobots : List (Option Mesh) → List Vec3 → ℕ →
    Except Unit (List BuiltModel)
  | [], _, _ => .ok []
  | scene :: rest, shifts, rbt => do
      let shift := if h : rbt < shifts.length then shifts[rbt] else (0, 0, 0)
      let tm ← getFCLModelFromScene [scene] [shift] 0
      let restModels ← configureRobots rest shifts (rbt + 1)
      .ok (⟨tm.1, tm.2⟩ :: restModels)

/-- `FCLMethodWrapper::configure`: build the environment model from all
obstacle sources and one model per robot part.  A failed mesh invariant
aborts the whole construction: no engine value is produced. -/
def configure (geom : GeometrySpecification) : Except Unit ConfiguredEngine := do
  let env ← getFCLModelFromScene geom.obstacles geom.obstaclesShift 0
  let parts ← configureRobots geom.robot geom.robotShift 0
  .ok ⟨⟨env.1, env.2⟩, parts⟩

/-- `SE2RigidBodyPlanning::getRobotCount` (from
`src/omplapp/apps/SE2RigidBodyPlanning.h`): the SE2 rigid-body application
always plans for a single robot part. -/
def SE2RigidBodyPlanning.getRobotCount : ℕ := 1

/-! ## Specification-side predicates

These definitions follow the wording of the specification (and of the claims
under examination), to be compared with the definitions above that were
translated from the source. -/

/-- The pose a part is actually tested at during a discrete query: the pose
implied by the state when the environment is non-empty (the transform step
runs), otherwise the pre-existing scratch pose (the transform step is
skipped). -/
abbrev testPose (c : PoseFromState) (w : FCLMethodWrapper) (s : PState) (i : ℕ) :
    Pose :=
  if 0 < w.envNumTris then c s i else nthPose w.robotParts i

/-- The discrete-validity predicate exactly as the claim states it: (a) the
environment is empty or no part, at the pose implied by the state, intersects
the environment, and (b) self-collision checking is disabled or no unordered
pair of distinct parts `i < j`, at the poses implied by the state, intersects. -/
abbrev specValid (o : FCLOracle) (c : PoseFromState) (w : FCLMethodWrapper)
    (s : PState) : Prop :=
  (w.envNumTris = 0 ∨ ∀ i < w.robotParts.length, o.collideEnv i (c s i) = false) ∧
  (w.selfCollision = false ∨ ∀ j < w.robotParts.length, ∀ i < j,
      o.collideParts i (c s i) j (c s j) = false)

/-- The amended discrete-validity predicate: as `specValid`, except that the
self-collision tests run at the poses the parts actually hold at test time
(`testPose`): the poses implied by the state when the environment is
non-empty, the stale scratch poses when it is empty. -/
abbrev specValidAmended (o : FCLOracle) (c : PoseFromState) (w : FCLMethodWrapper)
    (s : PState) : Prop :=
  (w.envNumTris = 0 ∨ ∀ i < w.robotParts.length, o.collideEnv i (c s i) = false) ∧
  (w.selfCollision = false ∨ ∀ j < w.robotParts.length, ∀ i < j,
      o.collideParts i (testPose c w s i) j (testPose c w s j) = false)

/-- The list of part-to-environment distances at the poses implied by the
state: the candidates among which the clearance minimum is taken. -/
abbrev partDistances (o : FCLOracle) (c : PoseFromState) (w : FCLMethodWrapper)
    (s : PState) : List ℚ :=
  (rangeFrom 0 w.robotParts.length).map (fun i => o.distEnv i (c s i))

/-! ## Concrete instances used to evaluate the queries at specific inputs -/

/-- A concrete pose (identity placement at the origin). -/
def poseA : Pose := ⟨(0, 0, 0), (1, 0, 0, 0)⟩

/-- A concrete pose translated along the first axis. -/
def poseB : Pose := ⟨(5, 0, 0), (1, 0, 0, 0)⟩

/-- An oracle whose part-pair test reports a collision exactly when both
parts sit at `poseA`; every other primitive reports no collision and zero
distance. -/
def oracleAA : FCLOracle :=
  { collideEnv := fun _ _ => false
    collideParts := fun _ p _ q => decide (p = poseA) && decide (q = poseA)
    distEnv := fun _ _ => 0
    caEnv := fun _ _ _ => none
    caParts := fun _ _ _ _ _ _ => none }

/-- An oracle whose conservative-advancement primitives always report a
contact at parameter 1/2. -/
def oracleHalf : FCLOracle :=
  { collideEnv := fun _ _ => false
    collideParts := fun _ _ _ _ => false
    distEnv := fun _ _ => 0
    caEnv := fun _ _ _ => some (1 / 2)
    caParts := fun _ _ _ _ _ _ => some (1 / 2) }

/-- A callback placing every part at `poseB` in every state. -/
def cbB : PoseFromState := fun _ _ => poseB

/-- Empty environment, two parts whose scratch poses are `poseA`,
self-collision enabled. -/
def wStale : FCLMethodWrapper := ⟨0, [poseA, poseA], true⟩

/-- Empty environment, one part, self-collision disabled. -/
def wEmpty : FCLMethodWrapper := ⟨0, [poseA], false⟩

/-- Non-empty environment, one part, self-collision disabled. -/
def wOnePart : FCLMethodWrapper := ⟨1, [poseA], false⟩

/-- Non-empty environment, no robot parts at all. -/
def wNoParts : FCLMethodWrapper := ⟨1, [], false⟩

/-- A point list whose length is not a multiple of 3 (a malformed mesh). -/
def badMesh : Mesh := [(0, 0, 0), (1, 0, 0)]

/-- A well-formed one-triangle point list. -/
def triMesh : Mesh := [(0, 0, 0), (1, 0, 0), (0, 1, 0)]

/-- A geometry specification whose only obstacle source is malformed. -/
def badGeom : GeometrySpecification := ⟨[some badMesh], [], [], []⟩

/-- A geometry specification whose only obstacle source is a null pointer. -/
def nullObstacleGeom : GeometrySpecification := ⟨[none], [], [], []⟩

/-- A scene list with a well-formed mesh followed by a null pointer. -/
def mixedScenes : List (Option Mesh) := [some triMesh, none]

/-! ## Helper lemmas -/

theorem transformParts_length (c : PoseFromState) (s : PState) :
    ∀ (l : List Pose) (j : ℕ), (transformParts c s j l).length = l.length := by
  intro l
  induction l with
  | nil => intro j; rfl
  | cons p rest ih => intro j; simp [transformParts, ih]

theorem nthPose_transformParts (c : PoseFromState) (s : PState) :
    ∀ (l : List Pose) (j k : ℕ), k < l.length →
      nthPose (transformParts c s j l) k = c s (j + k) := by
  intro l
  induction l with
  | nil => intro j k hk; simp at hk
  | cons p rest ih =>
      intro j k hk
      cases k with
      | zero => simp [transformParts, nthPose]
      | succ k =>
          have hk2 : k < rest.length := by simpa using hk
          have := ih (j + 1) k hk2
          simp only [transformParts, nthPose]
          rw [this]
          ring_nf

theorem envCollisionLoop_true_iff (o : FCLOracle) :
    ∀ (l : List Pose) (j : ℕ),
      (envCollisionLoop o (enumPoses j l)).1 = true ↔
        ∀ k < l.length, o.collideEnv (j + k) (nthPose l k) = false := by
  intro l
  induction l with
  | nil => intro j; simp [enumPoses, envCollisionLoop]
  | cons p rest ih =>
      intro j
      simp only [enumPoses, envCollisionLoop]
      cases hc : o.collideEnv j p with
      | false =>
          rw [if_neg (by simp [hc])]
          show (envCollisionLoop o (enumPoses (j + 1) rest)).1 = true ↔ _
          rw [ih (j + 1)]
          constructor
          · intro hall k hk
            cases k with
            | zero => simpa [nthPose] using hc
            | succ k =>
                have hk2 : k < rest.length := by simpa using hk
                have hx := hall k hk2
                rw [show j + (k + 1) = j + 1 + k by omega]
                simpa [nthPose] using hx
          · intro hall k hk
            have hx := hall (k + 1) (by simpa using Nat.succ_lt_succ hk)
            rw [show j + (k + 1) = j + 1 + k by omega] at hx
            simpa [nthPose] using hx
      | true =>
          rw [if_pos (rfl : (true : Bool) = true)]
          constructor
          · intro hfalse; exact Bool.noConfusion hfalse
          · intro hall
            have h0 := hall 0 (by simp)
            rw [Nat.add_zero] at h0
            simp only [nthPose] at h0
            rw [hc] at h0
            exact Bool.noConfusion h0

theorem selfPairLoop_true_iff (o : FCLOracle) (ip : ℕ × Pose) :
    ∀ (l : List Pose) (j : ℕ),
      (selfPairLoop o ip (enumPoses j l)).1 = true ↔
        ∀ k < l.length, o.collideParts ip.1 ip.2 (j + k) (nthPose l k) = false := by
  intro l
  induction l with
  | nil => intro j; simp [enumPoses, selfPairLoop]
  | cons p rest ih =>
      intro j
      simp only [enumPoses, selfPairLoop]
      cases hc : o.collideParts ip.1 ip.2 j p with
      | false =>
          rw [if_neg (by simp [hc])]
          show (selfPairLoop o ip (enumPoses (j + 1) rest)).1 = true ↔ _
          rw [ih (j + 1)]
          constructor
          · intro hall k hk
            cases k with
            | zero => simpa [nthPose] using hc
            | succ k =>
                have hk2 : k < rest.length := by simpa using hk
                have hx := hall k hk2
                rw [show j + (k + 1) = j + 1 + k by omega]
                simpa [nthPose] using hx
          · intro hall k hk
            have hx := hall (k + 1) (by simpa using Nat.succ_lt_succ hk)
            rw [show j + (k + 1) = j + 1 + k by omega] at hx
            simpa [nthPose] using hx
      | true =>
          rw [if_pos (rfl : (true : Bool) = true)]
          constructor
          · intro hfalse; exact Bool.noConfusion hfalse
          · intro hall
            have h0 := hall 0 (by simp)
            rw [Nat.add_zero] at h0
            simp only [nthPose] at h0
            rw [hc] at h0
            exact Bool.noConfusion h0

theorem selfCollisionLoop_true_iff (o : FCLOracle) :
    ∀ (l : List Pose) (j : ℕ),
      (selfCollisionLoop o (enumPoses j l)).1 = true ↔
        ∀ b < l.length, ∀ a < b,
          o.collideParts (j + a) (nthPose l a) (j + b) (nthPose l b) = false := by
  intro l
  induction l with
  | nil => intro j; simp [enumPoses, selfCollisionLoop]
  | cons p rest ih =>
      intro j
      simp only [enumPoses, selfCollisionLoop]
      cases hp : (selfPairLoop o (j, p) (enumPoses (j + 1) rest)).1 with
      | true =>
          rw [if_pos (rfl : (true : Bool) = true)]
          show (selfCollisionLoop o (enumPoses (j + 1) rest)).1 = true ↔ _
          rw [ih (j + 1)]
          rw [selfPairLoop_true_iff o (j, p) rest (j + 1)] at hp
          constructor
          · intro hall b hb a ha
            cases b with
            | zero => exact absurd ha (Nat.not_lt_zero a)
            | succ b =>
                have hb2 : b < rest.length := by simpa using hb
                cases a with
                | zero =>
                    have hx := hp b hb2
                    rw [show j + (b + 1) = j + 1 + b by omega, Nat.add_zero]
                    simpa [nthPose] using hx
                | succ a =>
                    have ha2 : a < b := by omega
                    have hx := hall b hb2 a ha2
                    rw [show j + (b + 1) = j + 1 + b by omega,
                        show j + (a + 1) = j + 1 + a by omega]
                    simpa [nthPose] using hx
          · intro hall b hb a ha
            have hx := hall (b + 1) (by simpa using Nat.succ_lt_succ hb) (a + 1)
              (by omega)
            rw [show j + (b + 1) = j + 1 + b by omega,
                show j + (a + 1) = j + 1 + a by omega] at hx
            simpa [nthPose] using hx
      | false =>
          rw [if_neg (by simp [hp])]
          constructor
          · intro htrue
            rw [hp] at htrue
            exact Bool.noConfusion htrue
          · intro hall
            have hP : ∀ k < rest.length,
                o.collideParts j p (j + 1 + k) (nthPose rest k) = false := by
              intro k hk
              have hx := hall (k + 1) (by simpa using Nat.succ_lt_succ hk) 0
                (Nat.succ_pos k)
              rw [show j + (k + 1) = j + 1 + k by omega, Nat.add_zero] at hx
              simpa [nthPose] using hx
            have htrue := (selfPairLoop_true_iff o (j, p) rest (j + 1)).mpr
              (fun k hk => hP k hk)
            rw [hp] at htrue
            exact Bool.noConfusion htrue

theorem envLoop_transform_iff (o : FCLOracle) (c : PoseFromState)
    (w : FCLMethodWrapper) (s : PState) :
    (envCollisionLoop o (enumPoses 0 (transformParts c s 0 w.robotParts))).1 = true ↔
      ∀ k < w.robotParts.length, o.collideEnv k (c s k) = false := by
  rw [envCollisionLoop_true_iff]
  constructor
  · intro h k hk
    have hx := h k (by rw [transformParts_length]; exact hk)
    rw [nthPose_transformParts c s w.robotParts 0 k hk] at hx
    simpa using hx
  · intro h k hk
    rw [transformParts_length] at hk
    rw [nthPose_transformParts c s w.robotParts 0 k hk]
    simpa using h k hk

theorem selfLoop_transform_iff (o : FCLOracle) (c : PoseFromState)
    (w : FCLMethodWrapper) (s : PState) :
    (selfCollisionLoop o (enumPoses 0 (transformParts c s 0 w.robotParts))).1 = true ↔
      ∀ b < w.robotParts.length, ∀ a < b,
        o.collideParts a (c s a) b (c s b) = false := by
  rw [selfCollisionLoop_true_iff]
  constructor
  · intro h b hb a ha
    have hb2 : b < (transformParts c s 0 w.robotParts).length := by
      rw [transformParts_length]; exact hb
    have hx := h b hb2 a ha
    rw [nthPose_transformParts c s w.robotParts 0 b hb,
        nthPose_transformParts c s w.robotParts 0 a (lt_trans ha hb)] at hx
    simpa using hx
  · intro h b hb a ha
    rw [transformParts_length] at hb
    rw [nthPose_transformParts c s w.robotParts 0 b hb,
        nthPose_transformParts c s w.robotParts 0 a (lt_trans ha hb)]
    simpa using h b hb a ha

theorem isValid_valid_iff (o : FCLOracle) (c : PoseFromState) (w : FCLMethodWrapper)
    (s : PState) :
    (isValid o c w s).valid = true ↔ specValidAmended o c w s := by
  by_cases henv : 0 < w.envNumTris
  · have hne : ¬ w.envNumTris = 0 := by omega
    simp only [isValid, specValidAmended, testPose, transformRobot, henv, if_true,
      eq_false hne, false_or]
    cases hsc : w.selfCollision with
    | false =>
        rw [if_neg (by simp)]
        show (envCollisionLoop o (enumPoses 0 (transformParts c s 0 w.robotParts))).1
            = true ↔ _
        rw [envLoop_transform_iff]
        constructor
        · intro hA; exact ⟨hA, Or.inl rfl⟩
        · intro hAB; exact hAB.1
    | true =>
        cases he : (envCollisionLoop o (enumPoses 0 (transformParts c s 0 w.robotParts))).1 with
        | true =>
            rw [if_pos (by simp)]
            have hA := (envLoop_transform_iff o c w s).mp he
            show (selfCollisionLoop o (enumPoses 0 (transformParts c s 0 w.robotParts))).1
              = true ↔ _
            rw [selfLoop_transform_iff]
            constructor
            · intro hB; exact ⟨hA, Or.inr hB⟩
            · intro hAB
              rcases hAB.2 with h1 | h2
              · exact Bool.noConfusion h1
              · exact h2
        | false =>
            rw [if_neg (by simp)]
            show (false : Bool) = true ↔ _
            constructor
            · intro h; exact Bool.noConfusion h
            · intro hAB
              have hx := (envLoop_transform_iff o c w s).mpr hAB.1
              rw [he] at hx
              exact Bool.noConfusion hx
  · have h0 : w.envNumTris = 0 := by omega
    simp only [isValid, specValidAmended, testPose, henv, if_false, h0,
      eq_self_iff_true, true_or, true_and]
    cases hsc : w.selfCollision with
    | false =>
        rw [if_neg (by simp)]
        simp
    | true =>
        rw [if_pos (by simp)]
        show (selfCollisionLoop o (enumPoses 0 w.robotParts)).1 = true ↔ _
        rw [selfCollisionLoop_true_iff]
        constructor
        · intro hB
          right
          intro b hb a ha
          have hx := hB b hb a ha
          simpa using hx
        · intro h
          rcases h with h1 | h2
          · exact Bool.noConfusion h1
          · intro b hb a ha
            have hx := h2 b hb a ha
            simpa using hx

theorem enumPoses_length :
    ∀ (l : List Pose) (j : ℕ), (enumPoses j l).length = l.length := by
  intro l
  induction l with
  | nil => intro j; rfl
  | cons p rest ih => intro j; simp [enumPoses, ih]

theorem selfCollisionLoop_short (o : FCLOracle) :
    ∀ l : List (ℕ × Pose), l.length ≤ 1 → selfCollisionLoop o l = (true, 0) := by
  intro l hl
  cases l with
  | nil => rfl
  | cons ip rest =>
      cases rest with
      | nil => rfl
      | cons jq rest2 => simp [List.length_cons] at hl

theorem caEnvLoop_wrapper (o : FCLOracle) (c : PoseFromState) (s1 s2 : PState)
    (w : FCLMethodWrapper) :
    ∀ (idxs : List ℕ) (t : ℚ), (caEnvLoop o c s1 s2 w idxs t).2.2 = w := by
  intro idxs
  induction idxs with
  | nil => intro t; rfl
  | cons i rest ih =>
      intro t
      simp only [caEnvLoop]
      cases o.caEnv i (c s1 i) (c s2 i) with
      | none => exact ih t
      | some tc => rfl

theorem caPairLoop_wrapper (o : FCLOracle) (c : PoseFromState) (s1 s2 : PState)
    (i : ℕ) (w : FCLMethodWrapper) :
    ∀ (js : List ℕ) (t : ℚ), (caPairLoop o c s1 s2 i w js t).2.2 = w := by
  intro js
  induction js with
  | nil => intro t; rfl
  | cons j rest ih =>
      intro t
      simp only [caPairLoop]
      cases o.caParts i (c s1 i) (c s2 i) j (c s1 j) (c s2 j) with
      | none => exact ih t
      | some tc => rfl

theorem caSelfLoop_wrapper (o : FCLOracle) (c : PoseFromState) (s1 s2 : PState)
    (n : ℕ) (w : FCLMethodWrapper) :
    ∀ (is : List ℕ) (t : ℚ), (caSelfLoop o c s1 s2 n w is t).2.2 = w := by
  intro is
  induction is with
  | nil => intro t; rfl
  | cons i rest ih =>
      intro t
      simp only [caSelfLoop]
      cases hr : (caPairLoop o c s1 s2 i w (rangeFrom (i + 1) (n - (i + 1))) t).1 with
      | true => rw [if_pos (rfl : (true : Bool) = true)]; exact ih _
      | false =>
          rw [if_neg (by simp)]
          exact caPairLoop_wrapper o c s1 s2 i w _ t

theorem caEnvLoop_valid_time (o : FCLOracle) (c : PoseFromState) (s1 s2 : PState)
    (w : FCLMethodWrapper) :
    ∀ (idxs : List ℕ) (t : ℚ), (caEnvLoop o c s1 s2 w idxs t).1 = true →
      (caEnvLoop o c s1 s2 w idxs t).2.1 = t := by
  intro idxs
  induction idxs with
  | nil => intro t _; rfl
  | cons i rest ih =>
      intro t h
      simp only [caEnvLoop] at h ⊢
      cases hc : o.caEnv i (c s1 i) (c s2 i) with
      | none => rw [hc] at h; exact ih t h
      | some tc => rw [hc] at h; exact Bool.noConfusion h

theorem caPairLoop_valid_time (o : FCLOracle) (c : PoseFromState) (s1 s2 : PState)
    (i : ℕ) (w : FCLMethodWrapper) :
    ∀ (js : List ℕ) (t : ℚ), (caPairLoop o c s1 s2 i w js t).1 = true →
      (caPairLoop o c s1 s2 i w js t).2.1 = t := by
  intro js
  induction js with
  | nil => intro t _; rfl
  | cons j rest ih =>
      intro t h
      simp only [caPairLoop] at h ⊢
      cases hc : o.caParts i (c s1 i) (c s2 i) j (c s1 j) (c s2 j) with
      | none => rw [hc] at h; exact ih t h
      | some tc => rw [hc] at h; exact Bool.noConfusion h

theorem caSelfLoop_valid_time (o : FCLOracle) (c : PoseFromState) (s1 s2 : PState)
    (n : ℕ) (w : FCLMethodWrapper) :
    ∀ (is : List ℕ) (t : ℚ), (caSelfLoop o c s1 s2 n w is t).1 = true →
      (caSelfLoop o c s1 s2 n w is t).2.1 = t := by
  intro is
  induction is with
  | nil => intro t _; rfl
  | cons i rest ih =>
      intro t h
      simp only [caSelfLoop] at h ⊢
      rcases Bool.eq_false_or_eq_true
          ((caPairLoop o c s1 s2 i w (rangeFrom (i + 1) (n - (i + 1))) t).1) with hb | hb
      · rw [if_pos hb] at h ⊢
        have ht := caPairLoop_valid_time o c s1 s2 i w
          (rangeFrom (i + 1) (n - (i + 1))) t hb
        rw [ih _ h, ht]
      · rw [if_neg (by simp [hb])] at h
        rw [hb] at h
        exact Bool.noConfusion h

theorem caEnvLoop_false_time (o : FCLOracle) (c : PoseFromState) (s1 s2 : PState)
    (w : FCLMethodWrapper) :
    ∀ (idxs : List ℕ) (t : ℚ), (caEnvLoop o c s1 s2 w idxs t).1 = false →
      ∃ i ∈ idxs, o.caEnv i (c s1 i) (c s2 i) =
        some (caEnvLoop o c s1 s2 w idxs t).2.1 := by
  intro idxs
  induction idxs with
  | nil => intro t h; exact Bool.noConfusion h
  | cons i rest ih =>
      intro t h
      simp only [caEnvLoop] at h ⊢
      cases hc : o.caEnv i (c s1 i) (c s2 i) with
      | none =>
          rw [hc] at h
          obtain ⟨i2, hmem, heq⟩ := ih t h
          exact ⟨i2, List.mem_cons_of_mem i hmem, heq⟩
      | some tc =>
          exact ⟨i, List.mem_cons_self i rest, hc⟩

theorem caPairLoop_false_time (o : FCLOracle) (c : PoseFromState) (s1 s2 : PState)
    (i : ℕ) (w : FCLMethodWrapper) :
    ∀ (js : List ℕ) (t : ℚ), (caPairLoop o c s1 s2 i w js t).1 = false →
      ∃ j ∈ js, o.caParts i (c s1 i) (c s2 i) j (c s1 j) (c s2 j) =
        some (caPairLoop o c s1 s2 i w js t).2.1 := by
  intro js
  induction js with
  | nil => intro t h; exact Bool.noConfusion h
  | cons j rest ih =>
      intro t h
      simp only [caPairLoop] at h ⊢
      cases hc : o.caParts i (c s1 i) (c s2 i) j (c s1 j) (c s2 j) with
      | none =>
          rw [hc] at h
          obtain ⟨j2, hmem, heq⟩ := ih t h
          exact ⟨j2, List.mem_cons_of_mem j hmem, heq⟩
      | some tc =>
          exact ⟨j, List.mem_cons_self j rest, hc⟩

theorem caSelfLoop_false_time (o : FCLOracle) (c : PoseFromState) (s1 s2 : PState)
    (n : ℕ) (w : FCLMethodWrapper) :
    ∀ (is : List ℕ) (t : ℚ), (caSelfLoop o c s1 s2 n w is t).1 = false →
      ∃ i ∈ is, ∃ j ∈ rangeFrom (i + 1) (n - (i + 1)),
        o.caParts i (c s1 i) (c s2 i) j (c s1 j) (c s2 j) =
          some (caSelfLoop o c s1 s2 n w is t).2.1 := by
  intro is
  induction is with
  | nil => intro t h; exact Bool.noConfusion h
  | cons i rest ih =>
      intro t h
      simp only [caSelfLoop] at h ⊢
      rcases Bool.eq_false_or_eq_true
          ((caPairLoop o c s1 s2 i w (rangeFrom (i + 1) (n - (i + 1))) t).1) with hb | hb
      · rw [if_pos hb] at h ⊢
        obtain ⟨i2, hmem, rest2⟩ := ih _ h
        exact ⟨i2, List.mem_cons_of_mem i hmem, rest2⟩
      · rw [if_neg (by simp [hb])] at h ⊢
        obtain ⟨j, hmem, heq⟩ := caPairLoop_false_time o c s1 s2 i w
          (rangeFrom (i + 1) (n - (i + 1))) t hb
        exact ⟨i, List.mem_cons_self i rest, j, hmem, heq⟩

theorem caEnvLoop_w_irrel (o : FCLOracle) (c : PoseFromState) (s1 s2 : PState)
    (w w2 : FCLMethodWrapper) :
    ∀ (idxs : List ℕ) (t : ℚ),
      (caEnvLoop o c s1 s2 w idxs t).1 = (caEnvLoop o c s1 s2 w2 idxs t).1 ∧
      (caEnvLoop o c s1 s2 w idxs t).2.1 = (caEnvLoop o c s1 s2 w2 idxs t).2.1 := by
  intro idxs
  induction idxs with
  | nil => intro t; exact ⟨rfl, rfl⟩
  | cons i rest ih =>
      intro t
      simp only [caEnvLoop]
      cases o.caEnv i (c s1 i) (c s2 i) with
      | none => exact ih t
      | some tc => exact ⟨rfl, rfl⟩

theorem caSelfLoop_short (o : FCLOracle) (c : PoseFromState) (s1 s2 : PState)
    (n : ℕ) (hn : n ≤ 1) (w : FCLMethodWrapper) (t : ℚ) :
    caSelfLoop o c s1 s2 n w (rangeFrom 0 n) t = (true, t, w) := by
  cases n with
  | zero => rfl
  | succ n =>
      cases n with
      | zero => rfl
      | succ n => omega

theorem clearanceLoop_some (o : FCLOracle) :
    ∀ (l : List (ℕ × Pose)) (q : ℚ),
      ∃ r, clearanceLoop o l (some q) = some r ∧
        (r = q ∨ r ∈ l.map (fun ip => o.distEnv ip.1 ip.2)) ∧
        r ≤ q ∧ ∀ d ∈ l.map (fun ip => o.distEnv ip.1 ip.2), r ≤ d := by
  intro l
  induction l with
  | nil => intro q; exact ⟨q, rfl, Or.inl rfl, le_refl q, by simp⟩
  | cons ip rest ih =>
      intro q
      simp only [clearanceLoop]
      by_cases hlt : o.distEnv ip.1 ip.2 < q
      · rw [if_pos hlt]
        obtain ⟨r, heq, hmem, hle, hall⟩ := ih (o.distEnv ip.1 ip.2)
        refine ⟨r, heq, ?_, le_trans hle (le_of_lt hlt), ?_⟩
        · rcases hmem with h1 | h2
          · exact Or.inr (by simp [h1])
          · exact Or.inr (by simp only [List.map_cons, List.mem_cons]; exact Or.inr h2)
        · intro d hd
          simp only [List.map_cons, List.mem_cons] at hd
          rcases hd with h1 | h2
          · rw [h1]; exact hle
          · exact hall d h2
      · rw [if_neg hlt]
        obtain ⟨r, heq, hmem, hle, hall⟩ := ih q
        refine ⟨r, heq, ?_, hle, ?_⟩
        · rcases hmem with h1 | h2
          · exact Or.inl h1
          · exact Or.inr (by simp only [List.map_cons, List.mem_cons]; exact Or.inr h2)
        · intro d hd
          simp only [List.map_cons, List.mem_cons] at hd
          rcases hd with h1 | h2
          · rw [h1]; exact le_trans hle (le_of_not_lt hlt)
          · exact hall d h2

theorem clearanceLoop_cons_none (o : FCLOracle) :
    ∀ (l : List (ℕ × Pose)), l ≠ [] →
      ∃ r, clearanceLoop o l none = some r ∧
        r ∈ l.map (fun ip => o.distEnv ip.1 ip.2) ∧
        ∀ d ∈ l.map (fun ip => o.distEnv ip.1 ip.2), r ≤ d := by
  intro l hne
  cases l with
  | nil => exact absurd rfl hne
  | cons ip rest =>
      obtain ⟨r, heq, hmem, hle, hall⟩ := clearanceLoop_some o rest (o.distEnv ip.1 ip.2)
      refine ⟨r, heq, ?_, ?_⟩
      · rcases hmem with h1 | h2
        · simp [h1]
        · exact List.mem_cons_of_mem _ h2
      · intro d hd
        simp only [List.map_cons, List.mem_cons] at hd
        rcases hd with h1 | h2
        · rw [h1]; exact hle
        · exact hall d h2

theorem enumPoses_transformParts (c : PoseFromState) (s : PState) :
    ∀ (l : List Pose) (j : ℕ),
      enumPoses j (transformParts c s j l) =
        (rangeFrom j l.length).map (fun i => (i, c s i)) := by
  intro l
  induction l with
  | nil => intro j; rfl
  | cons p rest ih =>
      intro j
      show (j, c s j) :: enumPoses (j + 1) (transformParts c s (j + 1) rest) = _
      rw [ih (j + 1)]
      rfl

theorem except_bind_ok_eta (x : Except Unit (List Vec3 × List Tri)) :
    (x >>= fun pr => Except.ok (pr.1, pr.2)) = x := by
  cases x with
  | error e => rfl
  | ok v => rfl

theorem getFCLModelFromScene_bad (m : Mesh) (hm : ¬ m.length % 3 = 0) :
    ∀ (scenes : List (Option Mesh)) (centers : List Vec3) (i : ℕ),
      some m ∈ scenes → getFCLModelFromScene scenes centers i = .error () := by
  intro scenes
  induction scenes with
  | nil => intro centers i h; simp at h
  | cons sc rest ih =>
      intro centers i h
      rcases List.mem_cons.mp h with h1 | h2
      · subst h1
        simp only [getFCLModelFromScene]
        have hlen : (if h : i < centers.length then
            m.map (fun v => vsub v centers[i]) else m).length = m.length := by
          by_cases hi : i < centers.length
          · rw [dif_pos hi]; simp
          · rw [dif_neg hi]
        rw [if_neg (by rw [hlen]; exact hm)]
      · cases sc with
        | none =>
            show getFCLModelFromScene rest centers (i + 1) = _
            exact ih centers (i + 1) h2
        | some t =>
            simp only [getFCLModelFromScene]
            by_cases hc : (if h : i < centers.length then
                t.map (fun v => vsub v centers[i]) else t).length % 3 = 0
            · rw [if_pos hc, ih centers (i + 1) h2]
              rfl
            · rw [if_neg hc]

theorem configureRobots_bad (m : Mesh) (hm : ¬ m.length % 3 = 0) :
    ∀ (robots : List (Option Mesh)) (shifts : List Vec3) (rbt : ℕ),
      some m ∈ robots → configureRobots robots shifts rbt = .error () := by
  intro robots
  induction robots with
  | nil => intro shifts rbt h; simp at h
  | cons sc rest ih =>
      intro shifts rbt h
      simp only [configureRobots]
      rcases List.mem_cons.mp h with h1 | h2
      · subst h1
        rw [getFCLModelFromScene_bad m hm [some m] _ 0
          (List.mem_singleton.mpr rfl)]
        rfl
      · cases hA : getFCLModelFromScene [sc]
            [if h : rbt < shifts.length then shifts[rbt] else (0, 0, 0)] 0 with
        | error e => rfl
        | ok v =>
            rw [ih shifts (rbt + 1) h2]
            rfl

theorem getFCL_all_none :
    ∀ (scenes : List (Option Mesh)) (centers : List Vec3) (j : ℕ),
      (∀ x ∈ scenes, x = none) →
      getFCLModelFromScene scenes centers j = .ok ([], []) := by
  intro scenes
  induction scenes with
  | nil => intro centers j _; rfl
  | cons sc rest ih =>
      intro centers j hall
      have h1 : sc = none := hall sc (List.mem_cons_self sc rest)
      subst h1
      show getFCLModelFromScene rest centers (j + 1) = _
      exact ih centers (j + 1) (fun x hx => hall x (List.mem_cons_of_mem _ hx))

theorem getFCL_none_set :
    ∀ (scenes : List (Option Mesh)) (centers : List Vec3) (i j : ℕ),
      scenes[i]? = some none →
      getFCLModelFromScene scenes centers j =
        getFCLModelFromScene (scenes.set i (some [])) centers j := by
  intro scenes
  induction scenes with
  | nil => intro centers i j h; simp at h
  | cons sc rest ih =>
      intro centers i j h
      cases i with
      | zero =>
          have hsc : sc = none := by simpa using h
          subst hsc
          show getFCLModelFromScene rest centers (j + 1) = _
          have hset : (none :: rest).set 0 (some ([] : Mesh)) =
              some ([] : Mesh) :: rest := rfl
          rw [hset]
          by_cases hj : j < centers.length
          · simp only [getFCLModelFromScene, dif_pos hj, List.map_nil,
              List.length_nil]
            rw [if_pos (by norm_num)]
            simp only [List.nil_append]
            have h0 : (0 + 2) / 3 = 0 := by norm_num
            rw [h0]
            simp only [trisFromCount, List.nil_append]
            exact (except_bind_ok_eta _).symm
          · simp only [getFCLModelFromScene, dif_neg hj, List.length_nil]
            rw [if_pos (by norm_num)]
            simp only [List.nil_append]
            have h0 : (0 + 2) / 3 = 0 := by norm_num
            rw [h0]
            simp only [trisFromCount, List.nil_append]
            exact (except_bind_ok_eta _).symm
      | succ i =>
          have h2 : rest[i]? = some none := by simpa using h
          cases sc with
          | none =>
              have hset : (none :: rest).set (i + 1) (some ([] : Mesh)) =
                  none :: rest.set i (some []) := rfl
              rw [hset]
              show getFCLModelFromScene rest centers (j + 1) =
                getFCLModelFromScene (rest.set i (some [])) centers (j + 1)
              exact ih centers i (j + 1) h2
          | some t =>
              have hset : (some t :: rest).set (i + 1) (some ([] : Mesh)) =
                  some t :: rest.set i (some []) := rfl
              rw [hset]
              simp only [getFCLModelFromScene]
              rw [ih centers i (j + 1) h2]

theorem isValid_valid_short (o : FCLOracle) (c : PoseFromState)
    (w : FCLMethodWrapper) (s : PState) (hn : w.robotParts.length ≤ 1) :
    (isValid o c w s).valid =
      (if 0 < w.envNumTris then
        (envCollisionLoop o (enumPoses 0 (transformParts c s 0 w.robotParts))).1
       else true) := by
  by_cases henv : 0 < w.envNumTris
  · rw [if_pos henv]
    simp only [isValid, transformRobot, henv, if_true]
    rcases Bool.eq_false_or_eq_true (w.selfCollision &&
        (envCollisionLoop o (enumPoses 0 (transformParts c s 0 w.robotParts))).1)
      with hb | hb
    · rw [if_pos hb]
      have he := ((Bool.and_eq_true _ _).mp hb).2
      show (selfCollisionLoop o (enumPoses 0 (transformParts c s 0 w.robotParts))).1 = _
      rw [selfCollisionLoop_short o _
        (by rw [enumPoses_length, transformParts_length]; exact hn)]
      exact he.symm
    · have hbn : ¬ (w.selfCollision &&
          (envCollisionLoop o (enumPoses 0 (transformParts c s 0 w.robotParts))).1)
            = true := by simp [hb]
      rw [if_neg hbn]
  · rw [if_neg henv]
    simp only [isValid, henv, if_false]
    rcases Bool.eq_false_or_eq_true w.selfCollision with hb | hb
    · have hbc : (w.selfCollision && (true, 0).1) = true := by simp [hb]
      rw [if_pos hbc]
      show (selfCollisionLoop o (enumPoses 0 w.robotParts)).1 = _
      rw [selfCollisionLoop_short o _ (by rw [enumPoses_length]; exact hn)]
    · have hbn : ¬ (w.selfCollision && (true, 0).1) = true := by simp [hb]
      rw [if_neg hbn]

theorem isValidMotion_short (o : FCLOracle) (c : PoseFromState)
    (w : FCLMethodWrapper) (s1 s2 : PState) (hn : w.robotParts.length ≤ 1) :
    (isValidMotion o c w s1 s2).valid =
      (if 0 < w.envNumTris then
        (caEnvLoop o c s1 s2 w (rangeFrom 0 w.robotParts.length) 1).1 else true) ∧
    (isValidMotion o c w s1 s2).collisionTime =
      (if 0 < w.envNumTris then
        (caEnvLoop o c s1 s2 w (rangeFrom 0 w.robotParts.length) 1).2.1 else 1) := by
  by_cases henv : 0 < w.envNumTris
  · simp only [isValidMotion, henv, if_true]
    rcases Bool.eq_false_or_eq_true (w.selfCollision &&
        (caEnvLoop o c s1 s2 w (rangeFrom 0 w.robotParts.length) 1).1) with hb | hb
    · rw [if_pos hb]
      have he := ((Bool.and_eq_true _ _).mp hb).2
      rw [caSelfLoop_short o c s1 s2 _ hn _ _]
      exact ⟨he.symm, rfl⟩
    · have hbn : ¬ (w.selfCollision &&
          (caEnvLoop o c s1 s2 w (rangeFrom 0 w.robotParts.length) 1).1) = true := by
        simp [hb]
      rw [if_neg hbn]
      exact ⟨rfl, rfl⟩
  · simp only [isValidMotion, henv, if_false]
    rcases Bool.eq_false_or_eq_true w.selfCollision with hb | hb
    · have hbc : (w.selfCollision && ((true, 1, w) : Bool × ℚ × FCLMethodWrapper).1)
          = true := by simp [hb]
      rw [if_pos hbc]
      rw [caSelfLoop_short o c s1 s2 _ hn _ _]
      exact ⟨rfl, rfl⟩
    · have hbn : ¬ (w.selfCollision && ((true, 1, w) : Bool × ℚ × FCLMethodWrapper).1)
          = true := by simp [hb]
      rw [if_neg hbn]
      exact ⟨rfl, rfl⟩

/-! ## Claim theorems -/

/-- C1 counterexample: with an empty environment model, self-collision
enabled, and two parts whose stale scratch poses coincide (and collide) while
the poses implied by the state do not collide, the discrete query returns
false although the predicate of the claim (pairs tested at the poses implied by
the state) holds — so the claimed equivalence fails. -/
theorem C1_counterexample :
    ¬ ((isValid oracleAA cbB wStale 0).valid = true ↔
        specValid oracleAA cbB wStale 0) := by
  decide

/-- C1 (amended): the discrete query `isValid(state)` returns true iff
(a) the environment model is empty or no robot part, at the pose implied by
the state, intersects the environment, and (b) self-collision checking is
disabled or no unordered pair of distinct parts (i < j) intersects at the
poses the parts hold at test time — the poses implied by the state when the
environment is non-empty (the transform step runs), the pre-existing scratch
poses when it is empty (the transform step is skipped); the short-circuiting
of remaining tests after the first detected collision does not change this
result. -/
theorem C1_discrete_validity (o : FCLOracle) (c : PoseFromState)
    (w : FCLMethodWrapper) (s : PState) :
    (isValid o c w s).valid = true ↔ specValidAmended o c w s :=
  isValid_valid_iff o c w s

/-- C2: with an environment model of zero triangles and self-collision
disabled, the discrete query returns true for every state and every oracle,
leaves the scratch poses untouched, and issues no intersection test at all
(the test counter is 0): the result is obtained by short-circuiting on the
empty environment. -/
theorem C2_empty_env_unconditionally_valid (o : FCLOracle) (c : PoseFromState)
    (w : FCLMethodWrapper) (s : PState) (henv : w.envNumTris = 0)
    (hsc : w.selfCollision = false) :
    isValid o c w s = ⟨true, w, 0⟩ := by
  simp [isValid, henv, hsc]

/-- C2 witness at a concrete engine. -/
theorem C2_witness : isValid oracleAA cbB wEmpty 0 = ⟨true, wEmpty, 0⟩ :=
  C2_empty_env_unconditionally_valid oracleAA cbB wEmpty 0 rfl rfl

/-- C3: if the continuous query `isValid(s1, s2, collisionTime)` returns
true, then on return `collisionTime` equals 1: it starts at 1 and a
valid motion never overwrites it. -/
theorem C3_valid_motion_time_one (o : FCLOracle) (c : PoseFromState)
    (w : FCLMethodWrapper) (s1 s2 : PState)
    (h : (isValidMotion o c w s1 s2).valid = true) :
    (isValidMotion o c w s1 s2).collisionTime = 1 := by
  by_cases henv : 0 < w.envNumTris
  · simp only [isValidMotion, henv, if_true] at h ⊢
    rcases Bool.eq_false_or_eq_true (w.selfCollision &&
        (caEnvLoop o c s1 s2 w (rangeFrom 0 w.robotParts.length) 1).1) with hb | hb
    · rw [if_pos hb] at h ⊢
      have he := ((Bool.and_eq_true _ _).mp hb).2
      have h1 := caSelfLoop_valid_time o c s1 s2 _ _ _ _ h
      rw [h1]
      exact caEnvLoop_valid_time o c s1 s2 w _ 1 he
    · have hbn : ¬ (w.selfCollision &&
          (caEnvLoop o c s1 s2 w (rangeFrom 0 w.robotParts.length) 1).1) = true := by
        simp [hb]
      rw [if_neg hbn] at h ⊢
      exact caEnvLoop_valid_time o c s1 s2 w _ 1 h
  · simp only [isValidMotion, henv, if_false] at h ⊢
    rcases Bool.eq_false_or_eq_true w.selfCollision with hb | hb
    · have hbc : (w.selfCollision && ((true, 1, w) : Bool × ℚ × FCLMethodWrapper).1)
          = true := by simp [hb]
      rw [if_pos hbc] at h ⊢
      have h1 := caSelfLoop_valid_time o c s1 s2 _ _ _ _ h
      rw [h1]
    · have hbn : ¬ (w.selfCollision && ((true, 1, w) : Bool × ℚ × FCLMethodWrapper).1)
          = true := by simp [hb]
      rw [if_neg hbn] at h ⊢

/-- C3 witness at a concrete engine with a contact-free oracle. -/
theorem C3_witness : (isValidMotion oracleAA cbB wOnePart 0 1).collisionTime = 1 :=
  C3_valid_motion_time_one oracleAA cbB wOnePart 0 1 rfl

/-- C4: if the continuous query returns false, the reported `collisionTime`
lies in the half-open interval [0, 1), given that the
conservative-advancement primitive only reports contact times within the
[0, 1) parameterization of the motion (its documented interface). -/
theorem C4_invalid_motion_time_range (o : FCLOracle) (c : PoseFromState)
    (w : FCLMethodWrapper) (s1 s2 : PState)
    (hEnv : ∀ i p q t, o.caEnv i p q = some t → 0 ≤ t ∧ t < 1)
    (hParts : ∀ i p1 p2 j q1 q2 t, o.caParts i p1 p2 j q1 q2 = some t →
      0 ≤ t ∧ t < 1)
    (h : (isValidMotion o c w s1 s2).valid = false) :
    0 ≤ (isValidMotion o c w s1 s2).collisionTime ∧
      (isValidMotion o c w s1 s2).collisionTime < 1 := by
  by_cases henv : 0 < w.envNumTris
  · simp only [isValidMotion, henv, if_true] at h ⊢
    rcases Bool.eq_false_or_eq_true (w.selfCollision &&
        (caEnvLoop o c s1 s2 w (rangeFrom 0 w.robotParts.length) 1).1) with hb | hb
    · rw [if_pos hb] at h ⊢
      obtain ⟨i, _, j, _, heq⟩ := caSelfLoop_false_time o c s1 s2 _ _ _ _ h
      exact hParts _ _ _ _ _ _ _ heq
    · have hbn : ¬ (w.selfCollision &&
          (caEnvLoop o c s1 s2 w (rangeFrom 0 w.robotParts.length) 1).1) = true := by
        simp [hb]
      rw [if_neg hbn] at h ⊢
      obtain ⟨i, _, heq⟩ := caEnvLoop_false_time o c s1 s2 w _ 1 h
      exact hEnv _ _ _ _ heq
  · simp only [isValidMotion, henv, if_false] at h ⊢
    rcases Bool.eq_false_or_eq_true w.selfCollision with hb | hb
    · have hbc : (w.selfCollision && ((true, 1, w) : Bool × ℚ × FCLMethodWrapper).1)
          = true := by simp [hb]
      rw [if_pos hbc] at h ⊢
      obtain ⟨i, _, j, _, heq⟩ := caSelfLoop_false_time o c s1 s2 _ _ _ _ h
      exact hParts _ _ _ _ _ _ _ heq
    · have hbn : ¬ (w.selfCollision && ((true, 1, w) : Bool × ℚ × FCLMethodWrapper).1)
          = true := by simp [hb]
      rw [if_neg hbn] at h
      exact Bool.noConfusion h

/-- C4 witness at a concrete engine whose oracle reports a contact at 1/2. -/
theorem C4_witness :
    0 ≤ (isValidMotion oracleHalf cbB wOnePart 0 1).collisionTime ∧
      (isValidMotion oracleHalf cbB wOnePart 0 1).collisionTime < 1 :=
  C4_invalid_motion_time_range oracleHalf cbB wOnePart 0 1
    (fun i p q t ht => by
      have hh : (1 : ℚ) / 2 = t := by simpa [oracleHalf] using ht
      rw [← hh]; constructor <;> norm_num)
    (fun i p1 p2 j q1 q2 t ht => by
      have hh : (1 : ℚ) / 2 = t := by simpa [oracleHalf] using ht
      rw [← hh]; constructor <;> norm_num)
    rfl

/-- C5 counterexample: with a non-empty environment but no robot parts,
clearance returns +∞ (modelled as `none`) although the environment model has
triangles — refuting "returns +∞ exactly when the environment model has zero
triangles". -/
theorem C5_counterexample :
    (clearance oracleAA cbB wNoParts 0).1 = none ∧ wNoParts.envNumTris ≠ 0 := by
  decide

/-- C5 (amended): clearance returns +∞ iff the environment model is empty or
there are no robot parts; whenever it returns a finite value, that value is
the minimum of the part-to-environment distances at the poses implied by the
state (it belongs to the distance list and bounds it below), and it is
non-negative whenever the distance primitive is. -/
theorem C5_clearance_minimum (o : FCLOracle) (c : PoseFromState)
    (w : FCLMethodWrapper) (s : PState) :
    ((clearance o c w s).1 = none ↔ (w.envNumTris = 0 ∨ w.robotParts = [])) ∧
    ∀ q, (clearance o c w s).1 = some q →
      q ∈ partDistances o c w s ∧ (∀ d ∈ partDistances o c w s, q ≤ d) ∧
      ((∀ d ∈ partDistances o c w s, 0 ≤ d) → 0 ≤ q) := by
  have hmap : (enumPoses 0 (transformParts c s 0 w.robotParts)).map
      (fun ip => o.distEnv ip.1 ip.2) = partDistances o c w s := by
    rw [enumPoses_transformParts, List.map_map]
    rfl
  have hlen : (enumPoses 0 (transformParts c s 0 w.robotParts)).length
      = w.robotParts.length := by
    rw [enumPoses_length, transformParts_length]
  by_cases henv : 0 < w.envNumTris
  · simp only [clearance, transformRobot, henv, if_true]
    constructor
    · constructor
      · intro hnone
        right
        by_contra hne
        have hl : enumPoses 0 (transformParts c s 0 w.robotParts) ≠ [] := by
          intro hnil
          rw [hnil] at hlen
          exact hne (List.length_eq_zero.mp hlen.symm)
        obtain ⟨r, heq, _, _⟩ := clearanceLoop_cons_none o _ hl
        rw [heq] at hnone
        exact Option.noConfusion hnone
      · intro hor
        rcases hor with h1 | h1
        · exact absurd h1 (by omega)
        · rw [h1]
          rfl
    · intro q hq
      have hl : enumPoses 0 (transformParts c s 0 w.robotParts) ≠ [] := by
        intro hnil
        rw [hnil] at hq
        exact Option.noConfusion hq
      obtain ⟨r, heq, hmem, hall⟩ := clearanceLoop_cons_none o _ hl
      rw [heq] at hq
      have hqr : r = q := Option.some.inj hq
      rw [hmap] at hmem hall
      rw [← hqr]
      exact ⟨hmem, hall, fun h0 => h0 r hmem⟩
  · have hcl : clearance o c w s = (none, w) := by
      simp only [clearance, henv, if_false]
    rw [hcl]
    refine ⟨⟨fun _ => Or.inl (by omega), fun _ => rfl⟩, ?_⟩
    intro q hq
    exact Option.noConfusion hq

/-- C5 witness at a concrete engine with one part and zero distance. -/
theorem C5_witness :
    (0 : ℚ) ∈ partDistances oracleAA cbB wOnePart 0 ∧
      (∀ d ∈ partDistances oracleAA cbB wOnePart 0, (0 : ℚ) ≤ d) ∧
      ((∀ d ∈ partDistances oracleAA cbB wOnePart 0, (0 : ℚ) ≤ d) → (0 : ℚ) ≤ 0) :=
  (C5_clearance_minimum oracleAA cbB wOnePart 0).2 0 rfl

/-- C6: a mesh source whose extracted point count is not a multiple of 3
(whether an obstacle or a robot-part source) makes engine construction fail
fast with a fatal error: `configure` returns `error` and no engine value is
produced, so no partially-built engine is queryable and nothing is silently
truncated. -/
theorem C6_malformed_mesh_fatal (geom : GeometrySpecification) (m : Mesh)
    (hmem : some m ∈ geom.obstacles ∨ some m ∈ geom.robot)
    (hm : ¬ m.length % 3 = 0) :
    configure geom = .error () := by
  simp only [configure]
  rcases hmem with h1 | h1
  · rw [getFCLModelFromScene_bad m hm geom.obstacles geom.obstaclesShift 0 h1]
    rfl
  · cases hA : getFCLModelFromScene geom.obstacles geom.obstaclesShift 0 with
    | error e => rfl
    | ok v =>
        rw [configureRobots_bad m hm geom.robot geom.robotShift 0 h1]
        rfl

/-- C6 witness: a two-point obstacle mesh aborts construction. -/
theorem C6_witness : configure badGeom = .error () :=
  C6_malformed_mesh_fatal badGeom badMesh (Or.inl (by simp [badGeom]))
    (by decide)

/-- C7: when the robot has at most one part, the self-collision flag has no
effect on the result of the discrete query nor on the result (boolean and
collision time) of the continuous query. -/
theorem C7_self_collision_no_effect (o : FCLOracle) (c : PoseFromState)
    (w : FCLMethodWrapper) (s s1 s2 : PState) (hn : w.robotParts.length ≤ 1) :
    ((isValid o c { w with selfCollision := true } s).valid
       = (isValid o c { w with selfCollision := false } s).valid)
    ∧ ((isValidMotion o c { w with selfCollision := true } s1 s2).valid
       = (isValidMotion o c { w with selfCollision := false } s1 s2).valid)
    ∧ ((isValidMotion o c { w with selfCollision := true } s1 s2).collisionTime
       = (isValidMotion o c { w with selfCollision := false } s1 s2).collisionTime) := by
  have hnt : ({ w with selfCollision := true } : FCLMethodWrapper).robotParts.length
      ≤ 1 := hn
  have hnf : ({ w with selfCollision := false } : FCLMethodWrapper).robotParts.length
      ≤ 1 := hn
  refine ⟨?_, ?_, ?_⟩
  · rw [isValid_valid_short o c _ s hnt, isValid_valid_short o c _ s hnf]
  · rw [(isValidMotion_short o c _ s1 s2 hnt).1, (isValidMotion_short o c _ s1 s2 hnf).1]
    show (if 0 < w.envNumTris then
        (caEnvLoop o c s1 s2 { w with selfCollision := true }
          (rangeFrom 0 w.robotParts.length) 1).1 else true)
      = (if 0 < w.envNumTris then
        (caEnvLoop o c s1 s2 { w with selfCollision := false }
          (rangeFrom 0 w.robotParts.length) 1).1 else true)
    by_cases henv : 0 < w.envNumTris
    · rw [if_pos henv, if_pos henv]
      exact (caEnvLoop_w_irrel o c s1 s2 _ _ _ 1).1
    · rw [if_neg henv, if_neg henv]
  · rw [(isValidMotion_short o c _ s1 s2 hnt).2, (isValidMotion_short o c _ s1 s2 hnf).2]
    show (if 0 < w.envNumTris then
        (caEnvLoop o c s1 s2 { w with selfCollision := true }
          (rangeFrom 0 w.robotParts.length) 1).2.1 else 1)
      = (if 0 < w.envNumTris then
        (caEnvLoop o c s1 s2 { w with selfCollision := false }
          (rangeFrom 0 w.robotParts.length) 1).2.1 else 1)
    by_cases henv : 0 < w.envNumTris
    · rw [if_pos henv, if_pos henv]
      exact (caEnvLoop_w_irrel o c s1 s2 _ _ _ 1).2
    · rw [if_neg henv, if_neg henv]

/-- C7 witness at a concrete one-part engine. -/
theorem C7_witness :
    ((isValid oracleAA cbB { wOnePart with selfCollision := true } 0).valid
       = (isValid oracleAA cbB { wOnePart with selfCollision := false } 0).valid)
    ∧ ((isValidMotion oracleAA cbB { wOnePart with selfCollision := true } 0 1).valid
       = (isValidMotion oracleAA cbB { wOnePart with selfCollision := false } 0 1).valid)
    ∧ ((isValidMotion oracleAA cbB { wOnePart with selfCollision := true } 0 1).collisionTime
       = (isValidMotion oracleAA cbB { wOnePart with selfCollision := false } 0 1).collisionTime) :=
  C7_self_collision_no_effect oracleAA cbB wOnePart 0 0 1 (by decide)

/-- C8: the continuous query leaves all engine state unchanged — the wrapper
value on return (environment triangle count, every per-part scratch pose,
self-collision flag) is exactly the wrapper on entry; all poses it uses are
fetched through the callback into local motion descriptors. -/
theorem C8_motion_query_pure (o : FCLOracle) (c : PoseFromState)
    (w : FCLMethodWrapper) (s1 s2 : PState) :
    (isValidMotion o c w s1 s2).wrapper = w := by
  by_cases henv : 0 < w.envNumTris
  · simp only [isValidMotion, henv, if_true]
    rcases Bool.eq_false_or_eq_true (w.selfCollision &&
        (caEnvLoop o c s1 s2 w (rangeFrom 0 w.robotParts.length) 1).1) with hb | hb
    · rw [if_pos hb]
      show (caSelfLoop o c s1 s2 w.robotParts.length
          ((caEnvLoop o c s1 s2 w (rangeFrom 0 w.robotParts.length) 1).2.2)
          (rangeFrom 0 w.robotParts.length)
          ((caEnvLoop o c s1 s2 w (rangeFrom 0 w.robotParts.length) 1).2.1)).2.2 = w
      rw [caSelfLoop_wrapper]
      exact caEnvLoop_wrapper o c s1 s2 w _ 1
    · have hbn : ¬ (w.selfCollision &&
          (caEnvLoop o c s1 s2 w (rangeFrom 0 w.robotParts.length) 1).1) = true := by
        simp [hb]
      rw [if_neg hbn]
      exact caEnvLoop_wrapper o c s1 s2 w _ 1
  · simp only [isValidMotion, henv, if_false]
    rcases Bool.eq_false_or_eq_true w.selfCollision with hb | hb
    · have hbc : (w.selfCollision && ((true, 1, w) : Bool × ℚ × FCLMethodWrapper).1)
          = true := by simp [hb]
      rw [if_pos hbc]
      show (caSelfLoop o c s1 s2 w.robotParts.length w
          (rangeFrom 0 w.robotParts.length) 1).2.2 = w
      rw [caSelfLoop_wrapper]
    · have hbn : ¬ (w.selfCollision && ((true, 1, w) : Bool × ℚ × FCLMethodWrapper).1)
          = true := by simp [hb]
      rw [if_neg hbn]

/-- C10: a null mesh source is skipped entirely — replacing it by an empty
(zero-point) source changes nothing, so it contributes no points, no
triangles, no shift and no invariant check — and with every obstacle source
null, construction succeeds exactly when the robot sources build, producing
an empty environment model (zero points, zero triangles). -/
theorem C10_null_scene_skipped :
    (∀ (scenes : List (Option Mesh)) (centers : List Vec3) (i : ℕ),
        scenes[i]? = some none →
        getFCLModelFromScene scenes centers 0 =
          getFCLModelFromScene (scenes.set i (some [])) centers 0) ∧
    (∀ geom : GeometrySpecification, (∀ x ∈ geom.obstacles, x = none) →
        configure geom = Except.map (fun parts => ⟨⟨[], []⟩, parts⟩)
          (configureRobots geom.robot geom.robotShift 0)) := by
  constructor
  · intro scenes centers i h
    exact getFCL_none_set scenes centers i 0 h
  · intro geom hall
    simp only [configure]
    rw [getFCL_all_none geom.obstacles geom.obstaclesShift 0 hall]
    cases hB : configureRobots geom.robot geom.robotShift 0 with
    | error e => rfl
    | ok parts => rfl

/-- C10 witness: a concrete scene list with a null source, and a
specification whose only obstacle source is null. -/
theorem C10_witness :
    (getFCLModelFromScene mixedScenes [] 0 =
      getFCLModelFromScene (mixedScenes.set 1 (some [])) [] 0) ∧
    configure nullObstacleGeom =
      Except.map (fun parts => ⟨⟨[], []⟩, parts⟩)
        (configureRobots nullObstacleGeom.robot nullObstacleGeom.robotShift 0) :=
  ⟨C10_null_scene_skipped.1 mixedScenes [] 1 rfl,
   C10_null_scene_skipped.2 nullObstacleGeom (by simp [nullObstacleGeom])⟩
